import Mathlib

/-
  Verification of the conversation-orchestration core of SaigaBot
  (src/src/bot.py) against its natural-language specification.

  The Python code is shallowly embedded: message dictionaries become the
  ChatMessage structure, Python str becomes String (or List Char where
  character-level slicing matters), in-place list rewriting becomes pure
  functions returning the list as it stands after the call, and the
  try/except blocks become total functions with an explicit error path.
-/

namespace SaigaBot

/-- A typed part of a multimodal message content list, as built by
_build_content (src/src/bot.py:604-643): either a text part or an
embedded-data image part. -/
inductive PyPart where
  | text (s : String)
  | imageUrl (u : String)
deriving DecidableEq, Repr

/-- The content slot of a message dictionary: Python None, a plain string,
or a list of typed parts. -/
inductive PyContent where
  | null
  | str (s : String)
  | parts (ps : List PyPart)
deriving DecidableEq, Repr

/-- isinstance(content, str) on a message content. -/
def PyContent.isStr : PyContent → Bool
  | PyContent.str _ => true
  | _ => false

/-- A message dictionary as handled by _prepare_history and friends:
role, content, and the optional author name (absent or None for
assistant/system messages; line 725 of bot.py projects it away). -/
structure ChatMessage where
  role : String
  content : PyContent
  user_name : Option String
deriving DecidableEq, Repr

/-- Python truthiness of the user_name slot: None and the empty string are
falsy, any other string is truthy. -/
def pyTruthy : Option String → Bool
  | none => false
  | some s => !(s == "")

/-- The per-message body of the _format_chat loop (src/src/bot.py:708-717):
a user-authored plain-text message with a truthy user_name gets its content
rewritten to "user_name: text"; everything else is untouched. -/
def tagUserMessage (m : ChatMessage) : ChatMessage :=
  match m.content with
  | PyContent.str s =>
    if m.role = "user" ∧ pyTruthy m.user_name = true then
      match m.user_name with
      | some uname => { m with content := PyContent.str (uname ++ ": " ++ s) }
      | none => m
    else m
  | _ => m

/-- Models _format_chat (src/src/bot.py:708-717). The source mutates each
message dictionary in place inside a for loop and returns the very list it
received, so this function describes both the returned sequence and the
state of the input list after the call: they are the same (mutated) list. -/
def formatChat (messages : List ChatMessage) : List ChatMessage :=
  messages.map tagUserMessage

/-- The in-place string concatenation performed by the merge branch of
_merge_messages (src/src/bot.py:702): previous content, a blank line, then
the current content. Only ever applied when both sides are plain strings. -/
def concatContents : PyContent → PyContent → PyContent
  | PyContent.str a, PyContent.str b => PyContent.str (a ++ "\n\n" ++ b)
  | a, _ => a

/-- The loop of _merge_messages (src/src/bot.py:689-706), with the
accumulator new_messages kept in reverse order and prev_role threaded
explicitly.  A message with None content is skipped (without touching
prev_role); when the role equals prev_role and both the current content and
the accumulator head content are plain strings, the current text is folded
into the accumulator head with a blank-line separator and prev_role is left
as is; otherwise the message is appended and prev_role becomes its role.
The source indexes new_messages[-1] only when prev_role matches, which on
the reachable states (prev_role is None exactly while the accumulator is
empty) implies the accumulator is non-empty; the empty-accumulator arm here
is therefore the append arm, as in every reachable execution. -/
def mergeAux : List ChatMessage → List ChatMessage → Option String → List ChatMessage
  | [], acc, _ => acc.reverse
  | m :: rest, acc, prevRole =>
    if m.content = PyContent.null then
      mergeAux rest acc prevRole
    else
      match acc with
      | p :: accTail =>
        if prevRole = some m.role ∧ m.content.isStr = true ∧ p.content.isStr = true then
          mergeAux rest ({ p with content := concatContents p.content m.content } :: accTail) prevRole
        else
          mergeAux rest (m :: p :: accTail) (some m.role)
      | [] => mergeAux rest [m] (some m.role)

/-- Models _merge_messages (src/src/bot.py:689-706): the role-merge pass. -/
def mergeMessages (messages : List ChatMessage) : List ChatMessage :=
  mergeAux messages [] none

/-- The token-counting branch of _count_tokens for the heuristic backend
family (src/src/bot.py:671-675): sum len(content) // 2 over plain-string
messages, non-text messages contribute nothing.  Used below as one concrete
instance of the abstract counter threaded through the trim loop. -/
def countTokensAnthropic (messages : List ChatMessage) : Nat :=
  messages.foldl
    (fun acc m =>
      match m.content with
      | PyContent.str s => acc + s.length / 2
      | _ => acc)
    0

/-- The while loop of _prepare_history (src/src/bot.py:729-731), with an
explicit fuel argument bounding the number of iterations: while the token
count exceeds the budget and at least 3 messages remain, rebind the history
to its suffix without the two oldest messages and recount.  The loop drops
two messages per iteration and only runs while at least 3 remain, so
(length of the initial history) iterations of fuel are never exhausted
before the guard fails (proved below in trimLoop_spec). -/
def trimLoop (cnt : List ChatMessage → Nat) (maxTokens : Nat) :
    Nat → List ChatMessage → List ChatMessage
  | 0, history => history
  | fuel + 1, history =>
    if cnt history > maxTokens ∧ history.length ≥ 3 then
      trimLoop cnt maxTokens fuel (history.drop 2)
    else
      history

/-- The budget-fit step of _prepare_history (src/src/bot.py:728-732). -/
def trimHistory (cnt : List ChatMessage → Nat) (maxTokens : Nat)
    (history : List ChatMessage) : List ChatMessage :=
  trimLoop cnt maxTokens history.length history

/-- Models _prepare_history (src/src/bot.py:719-733): author tagging for
group chats, role-merge, projection of each message to its content and role
keys (line 725), the capability filter keeping plain-text messages and,
when the model can handle images, multimodal ones too (line 726), and the
token-budget trim loop.  The token counter is a parameter covering the
three backend families of _count_tokens. -/
def prepareHistory (cnt : List ChatMessage → Nat) (maxTokens : Nat)
    (canHandleImages : Bool) (isChat : Bool)
    (history : List ChatMessage) : List ChatMessage :=
  let h1 := if isChat then formatChat history else history
  let h2 := mergeMessages h1
  let h3 := h2.map fun m => { role := m.role, content := m.content, user_name := none }
  let h4 := h3.filter fun m => m.content.isStr || canHandleImages
  trimHistory cnt maxTokens h4

/-- The answer-splitting comprehension of generate (src/src/bot.py:561):
answer[i : i + chunk_size] for i in range(0, len(answer), chunk_size).
Python strings are modelled as lists of characters; range(0, L, n) with
n > 0 has exactly (L + n - 1) / n elements. -/
def generateChunks (answer : List Char) (chunkSize : Nat) : List (List Char) :=
  (List.range' 0 ((answer.length + chunkSize - 1) / chunkSize) chunkSize).map
    fun i => (answer.drop i).take chunkSize

/-- Python str.find for a single character: the index of the first
occurrence, or -1 when absent (used on line 439 of bot.py). -/
def pyFind (c : Char) (s : List Char) : Int :=
  match s.findIdx? (fun x => x = c) with
  | some i => (i : Int)
  | none => -1

/-- Python str.rfind for a single character: the index of the last
occurrence, or -1 when absent (used on line 440 of bot.py). -/
def pyRFind (c : Char) (s : List Char) : Int :=
  match s.reverse.findIdx? (fun x => x = c) with
  | some i => ((s.length - 1 - i : Nat) : Int)
  | none => -1

/-- A Python slice s[a : b] with unit step: negative bounds count from the
end, then both bounds are clamped into [0, len(s)]. -/
def pySlice (s : List Char) (a b : Int) : List Char :=
  let n : Int := s.length
  let lo : Int := if a < 0 then max 0 (a + n) else min a n
  let hi : Int := if b < 0 then max 0 (b + n) else min b n
  (s.take hi.toNat).drop lo.toNat

/-- The span extraction of check_tools (src/src/bot.py:439-441): locate the
first opening brace and the last closing brace and slice the answer between
them, inclusive. -/
def extractJsonSpan (answer : List Char) : List Char :=
  pySlice answer (pyFind '\x7b' answer) (pyRFind '\x7d' answer + 1)

/-- A decoded Python value as returned by json.loads: enough structure to
hold strings, numbers, arrays and objects. -/
inductive PyObj where
  | str (s : String)
  | int (n : Int)
  | dict (entries : List (String × PyObj))
  | list (items : List PyObj)

/-- Dictionary subscripting d[key]: the first matching entry, or None when
the key is absent (in which case Python raises KeyError). -/
def lookupKey : List (String × PyObj) → String → Option PyObj
  | [], _ => none
  | (k, v) :: rest, key => if k = key then some v else lookupKey rest key

/-- The parse-and-fallback body of check_tools (src/src/bot.py:433-444).
The backend call and json.loads are external collaborators, passed in as
functions that either return a value or raise; every raise anywhere in the
try block (a failed call, undecodable JSON, loads returning a non-dict so
that subscripting raises TypeError, or a dict without the tools key raising
KeyError) lands in the except arm, which replaces the answer with the empty
dictionary. -/
def checkToolsParse (jsonLoads : List Char → Except String PyObj)
    (modelAnswer : Except String (List Char)) : PyObj :=
  let attempt : Except String PyObj :=
    match modelAnswer with
    | Except.error e => Except.error e
    | Except.ok answer =>
      match jsonLoads (extractJsonSpan answer) with
      | Except.error e => Except.error e
      | Except.ok (PyObj.dict entries) =>
        match lookupKey entries "tools" with
        | some tools => Except.ok tools
        | none => Except.error "KeyError: tools"
      | Except.ok _ => Except.error "TypeError: not a dict"
  match attempt with
  | Except.ok tools => tools
  | Except.error _ => PyObj.dict []

/-- One tier entry of the limits table self.limits[model][mode]
(src/src/bot.py:369-370): a message limit and a trailing-window length in
seconds. -/
structure LimitEntry where
  limit : Int
  interval : Nat
deriving DecidableEq, Repr

/-- Models count_remaining_messages (src/src/bot.py:366-373).  The limits
table and the two database collaborators (is_subscribed_user, bound to the
user already, and count_user_messages, bound to the user and taking the
model and window) are parameters. -/
def countRemainingMessages (limits : String → String → LimitEntry)
    (isSubscribedUser : Bool) (countUserMessages : String → Nat → Int)
    (model : String) : Int :=
  let mode := if !isSubscribedUser then "standard" else "subscribed"
  let limit := (limits model mode).limit
  let interval := (limits model mode).interval
  let count := countUserMessages model interval
  max 0 (limit - count)

/-- Full characterization of the trim loop, by induction on the fuel: the
result is the input with some k leading pairs dropped, k is at most half
the length, the guard fails at the result (so the loop exits through its
condition, never by fuel exhaustion when the fuel is at least the length),
and the guard held at every earlier stage. -/
theorem trimLoop_spec (cnt : List ChatMessage → Nat) (mx : Nat) :
    ∀ (fuel : Nat) (h : List ChatMessage), h.length ≤ fuel →
      ∃ k, k ≤ h.length / 2
        ∧ trimLoop cnt mx fuel h = h.drop (2 * k)
        ∧ ¬(cnt (h.drop (2 * k)) > mx ∧ (h.drop (2 * k)).length ≥ 3)
        ∧ ∀ j, j < k → cnt (h.drop (2 * j)) > mx ∧ (h.drop (2 * j)).length ≥ 3 := by
  intro fuel
  induction fuel with
  | zero =>
    intro h hlen
    refine ⟨0, by omega, by simp [trimLoop], ?_, by simp⟩
    simp only [Nat.mul_zero, List.drop_zero]
    omega
  | succ fuel ih =>
    intro h hlen
    by_cases hg : cnt h > mx ∧ h.length ≥ 3
    · have hstep : trimLoop cnt mx (fuel + 1) h = trimLoop cnt mx fuel (h.drop 2) := by
        simp [trimLoop, hg]
      have hlen2 : (h.drop 2).length ≤ fuel := by
        simp only [List.length_drop]
        omega
      obtain ⟨k, hk, heq, hstop, hall⟩ := ih (h.drop 2) hlen2
      have hdl : (h.drop 2).length = h.length - 2 := List.length_drop 2 h
      refine ⟨k + 1, by omega, ?_, ?_, ?_⟩
      · rw [hstep, heq, List.drop_drop]
        congr 1
        omega
      · rw [List.drop_drop] at hstop
        have e : 2 * (k + 1) = 2 + 2 * k := by ring
        rw [e]
        exact hstop
      · intro j hj
        match j with
        | 0 =>
          simpa using hg
        | j' + 1 =>
          have hthis := hall j' (by omega)
          rw [List.drop_drop] at hthis
          have e : 2 * (j' + 1) = 2 + 2 * j' := by ring
          rw [e]
          exact hthis
    · refine ⟨0, by omega, by simp [trimLoop, hg], ?_, by simp⟩
      simpa using hg

/-- The characterization transported to _prepare_history's budget-fit step. -/
theorem trimHistory_spec (cnt : List ChatMessage → Nat) (mx : Nat)
    (h : List ChatMessage) :
    ∃ k, k ≤ h.length / 2
      ∧ trimHistory cnt mx h = h.drop (2 * k)
      ∧ ¬(cnt (h.drop (2 * k)) > mx ∧ (h.drop (2 * k)).length ≥ 3)
      ∧ ∀ j, j < k → cnt (h.drop (2 * j)) > mx ∧ (h.drop (2 * j)).length ≥ 3 :=
  trimLoop_spec cnt mx h.length h le_rfl

/-- A history of fewer than 3 messages is returned untouched by the
budget-fit loop, whatever the counter and the budget. -/
theorem trimHistory_short (cnt : List ChatMessage → Nat) (mx : Nat)
    (h : List ChatMessage) (hlen : h.length < 3) : trimHistory cnt mx h = h := by
  obtain ⟨k, _, heq, _, hall⟩ := trimHistory_spec cnt mx h
  match k, heq, hall with
  | 0, heq, _ => simpa using heq
  | k' + 1, _, hall =>
    have h0 := (hall 0 (by omega)).2
    simp only [Nat.mul_zero, List.drop_zero] at h0
    omega

/-- Splitting the empty answer yields no chunks: range(0, 0, n) is empty. -/
theorem generateChunks_nil (cs : Nat) : generateChunks [] cs = [] := by
  rcases Nat.eq_zero_or_pos cs with h | h
  · subst h
    rfl
  · have hz : (cs - 1) / cs = 0 := Nat.div_eq_of_lt (by omega)
    simp [generateChunks, hz]

/-- Shifting the start of an arithmetic range commutes with mapping. -/
theorem range'_map_shift {α : Type} (f : Nat → α) :
    ∀ (k s t step : Nat),
      (List.range' (t + s) k step).map f
        = (List.range' s k step).map fun i => f (t + i) := by
  intro k
  induction k with
  | zero => intro s t step; rfl
  | succ k ih =>
    intro s t step
    rw [List.range'_succ, List.range'_succ]
    simp only [List.map_cons]
    rw [Nat.add_assoc]
    rw [ih (s + step) t step]

/-- Peeling the first chunk off a non-empty answer. -/
theorem generateChunks_cons (cs : Nat) (hcs : 0 < cs) (s : List Char)
    (hs : s ≠ []) :
    generateChunks s cs = s.take cs :: generateChunks (s.drop cs) cs := by
  have hlen : 0 < s.length := List.length_pos.mpr hs
  have hnum : (s.length + cs - 1) / cs = ((s.drop cs).length + cs - 1) / cs + 1 := by
    rw [List.length_drop]
    rcases le_or_lt s.length cs with hle | hlt
    · have h1 : s.length - cs = 0 := by omega
      rw [h1]
      have h2 : (cs - 1) / cs = 0 := Nat.div_eq_of_lt (by omega)
      have h3 : s.length + cs - 1 = (s.length - 1) + cs := by omega
      have h4 : (s.length - 1) / cs = 0 := Nat.div_eq_of_lt (by omega)
      rw [h3, Nat.add_div_right _ hcs, h4]
      simpa using h2
    · have h1 : s.length - cs + cs - 1 = s.length - cs - 1 + cs := by omega
      have h2 : s.length + cs - 1 = (s.length - 1) + cs := by omega
      have h3 : s.length - 1 = (s.length - cs - 1) + cs := by omega
      rw [h1, h2, Nat.add_div_right _ hcs, Nat.add_div_right _ hcs, h3,
        Nat.add_div_right _ hcs]
  rw [generateChunks, generateChunks, hnum, List.range'_succ]
  simp only [List.map_cons, List.drop_zero, Nat.zero_add]
  congr 1
  have hshift := range'_map_shift (fun i => (s.drop i).take cs)
    (((s.drop cs).length + cs - 1) / cs) 0 cs cs
  rw [Nat.add_zero] at hshift
  rw [hshift]
  apply List.map_congr_left
  intro i _
  simp only [List.drop_drop]

/-- Concatenating the chunks in order rebuilds the answer exactly. -/
theorem generateChunks_flatten (cs : Nat) (hcs : 0 < cs) (s : List Char) :
    (generateChunks s cs).flatten = s := by
  by_cases hs : s = []
  · subst hs
    rw [generateChunks_nil]
    rfl
  · rw [generateChunks_cons cs hcs s hs, List.flatten_cons,
      generateChunks_flatten cs hcs (s.drop cs), List.take_append_drop]
termination_by s.length
decreasing_by
  have h1 : 0 < s.length := List.length_pos.mpr hs
  simp only [List.length_drop]
  omega

/-- Every chunk is at most chunkSize characters long. -/
theorem generateChunks_length_le (cs : Nat) (s : List Char) :
    ∀ c ∈ generateChunks s cs, c.length ≤ cs := by
  intro c hc
  simp only [generateChunks, List.mem_map] at hc
  obtain ⟨i, _, rfl⟩ := hc
  rw [List.length_take]
  exact min_le_left _ _

/-- For a non-empty answer and a positive chunk size, every chunk is
non-empty: each start index of the range is below the answer length. -/
theorem generateChunks_ne_nil (cs : Nat) (hcs : 0 < cs) (s : List Char)
    (hs : s ≠ []) : ∀ c ∈ generateChunks s cs, c ≠ [] := by
  intro c hc
  have hlen : 0 < s.length := List.length_pos.mpr hs
  simp only [generateChunks, List.mem_map] at hc
  obtain ⟨i, hi, rfl⟩ := hc
  rw [List.mem_range'] at hi
  obtain ⟨j, hj, rfl⟩ := hi
  have hnum : (s.length + cs - 1) / cs = (s.length - 1) / cs + 1 := by
    have h2 : s.length + cs - 1 = (s.length - 1) + cs := by omega
    rw [h2, Nat.add_div_right _ hcs]
  have hj' : j ≤ (s.length - 1) / cs := by
    rw [hnum] at hj
    omega
  have hcsj : cs * j ≤ s.length - 1 := by
    calc cs * j ≤ cs * ((s.length - 1) / cs) := Nat.mul_le_mul_left _ hj'
    _ ≤ s.length - 1 := by
      rw [Nat.mul_comm]
      exact Nat.div_mul_le_self _ _
  have hlt : 0 + cs * j < s.length :=
    Nat.lt_of_le_of_lt (by simpa using hcsj) (by omega)
  intro hnil
  rw [List.take_eq_nil_iff] at hnil
  rcases hnil with h0 | hdrop
  · omega
  · rw [List.drop_eq_nil_iff] at hdrop
    exact absurd hdrop (not_le.mpr hlt)

/-- Mapping a function over a list returns the list itself exactly when the
function fixes every element of the list. -/
theorem map_fixes_iff {α : Type} (f : α → α) :
    ∀ l : List α, l.map f = l ↔ ∀ x ∈ l, f x = x := by
  intro l
  induction l with
  | nil => simp
  | cons a l ih => simp [ih]

/-- Two adjacent messages that the merge pass must not fold together: they
differ in role, or one of them is not plain text. -/
def MergeBlocked (p m : ChatMessage) : Prop :=
  ¬(p.role = m.role ∧ p.content.isStr = true ∧ m.content.isStr = true)

theorem isStr_ne_null (a : PyContent) (h : a.isStr = true) :
    a ≠ PyContent.null := by
  cases a <;> simp_all [PyContent.isStr]

theorem concat_isStr (a b : PyContent) (ha : a.isStr = true)
    (hb : b.isStr = true) : (concatContents a b).isStr = true := by
  cases a <;> cases b <;> simp_all [concatContents, PyContent.isStr]

/-- Invariant preservation for the merge loop: starting from an accumulator
whose entries have non-None content and in which (read back to front) no
adjacent pair is mergeable, with prev_role equal to the role of the head of
the accumulator, the loop produces a sequence with non-None contents and no
adjacent mergeable pair. -/
theorem mergeAux_normalized :
    ∀ (l acc : List ChatMessage) (pr : Option String),
      (∀ x ∈ acc, x.content ≠ PyContent.null) →
      List.Chain' (fun a b => MergeBlocked b a) acc →
      pr = acc.head?.map ChatMessage.role →
      (∀ x ∈ mergeAux l acc pr, x.content ≠ PyContent.null)
        ∧ List.Chain' MergeBlocked (mergeAux l acc pr) := by
  intro l
  induction l with
  | nil =>
    intro acc pr hnull hchain _
    refine ⟨?_, ?_⟩
    · intro x hx
      rw [show mergeAux [] acc pr = acc.reverse from rfl] at hx
      exact hnull x (List.mem_reverse.mp hx)
    · rw [show mergeAux [] acc pr = acc.reverse from rfl]
      exact List.chain'_reverse.mpr hchain
  | cons m rest ih =>
    intro acc pr hnull hchain hpr
    by_cases hm : m.content = PyContent.null
    · have hstep : mergeAux (m :: rest) acc pr = mergeAux rest acc pr := by
        simp [mergeAux, hm]
      rw [hstep]
      exact ih acc pr hnull hchain hpr
    · cases acc with
      | nil =>
        have hstep : mergeAux (m :: rest) [] pr = mergeAux rest [m] (some m.role) := by
          simp [mergeAux, hm]
        rw [hstep]
        apply ih
        · intro x hx
          rw [List.mem_singleton] at hx
          subst hx
          exact hm
        · simp
        · simp
      | cons p accTail =>
        have hpr' : pr = some p.role := by simpa using hpr
        by_cases hcond : pr = some m.role ∧ m.content.isStr = true ∧ p.content.isStr = true
        · have hstep : mergeAux (m :: rest) (p :: accTail) pr
              = mergeAux rest ({ p with content := concatContents p.content m.content } :: accTail) pr := by
            simp [mergeAux, hm, hcond]
          rw [hstep]
          obtain ⟨hhead, htail⟩ := List.chain'_cons'.mp hchain
          apply ih
          · intro x hx
            rcases List.mem_cons.mp hx with hx | hx
            · subst hx
              exact isStr_ne_null _ (concat_isStr _ _ hcond.2.2 hcond.2.1)
            · exact hnull x (List.mem_cons_of_mem _ hx)
          · refine List.chain'_cons'.mpr ⟨?_, htail⟩
            intro y hy
            have hb := hhead y hy
            intro hcontra
            exact hb ⟨hcontra.1, hcontra.2.1, hcond.2.2⟩
          · simpa using hpr'
        · have hstep : mergeAux (m :: rest) (p :: accTail) pr
              = mergeAux rest (m :: p :: accTail) (some m.role) := by
            simp [mergeAux, hm, hcond]
          rw [hstep]
          apply ih
          · intro x hx
            rcases List.mem_cons.mp hx with hx | hx
            · subst hx
              exact hm
            · exact hnull x hx
          · refine List.chain'_cons'.mpr ⟨?_, hchain⟩
            intro y hy
            simp only [List.head?_cons, Option.mem_def, Option.some_inj] at hy
            subst hy
            intro hcontra
            exact hcond ⟨by rw [hpr', hcontra.1], hcontra.2.2, hcontra.2.1⟩
          · simp

/-- On an input that is already normalized (no None content, no adjacent
mergeable pair), the merge loop appends every message unchanged. -/
theorem mergeAux_eq_append :
    ∀ (l acc : List ChatMessage) (pr : Option String),
      (∀ x ∈ l, x.content ≠ PyContent.null) →
      List.Chain' MergeBlocked l →
      pr = acc.head?.map ChatMessage.role →
      (∀ p m, acc.head? = some p → l.head? = some m → MergeBlocked p m) →
      mergeAux l acc pr = acc.reverse ++ l := by
  intro l
  induction l with
  | nil =>
    intro acc pr _ _ _ _
    simp [mergeAux]
  | cons m rest ih =>
    intro acc pr hnull hchain hpr hbound
    have hm : m.content ≠ PyContent.null := hnull m (List.mem_cons_self _ _)
    obtain ⟨hheadrel, htail⟩ := List.chain'_cons'.mp hchain
    cases acc with
    | nil =>
      have hstep : mergeAux (m :: rest) [] pr = mergeAux rest [m] (some m.role) := by
        simp [mergeAux, hm]
      rw [hstep]
      rw [ih [m] (some m.role) (fun x hx => hnull x (List.mem_cons_of_mem _ hx)) htail
        (by simp) ?_]
      · simp
      · intro q m2 hq hm2
        simp only [List.head?_cons, Option.some_inj] at hq
        subst hq
        exact hheadrel m2 hm2
    | cons p accTail =>
      have hpr' : pr = some p.role := by simpa using hpr
      have hpm : MergeBlocked p m := hbound p m (by simp) (by simp)
      have hcond : ¬(pr = some m.role ∧ m.content.isStr = true ∧ p.content.isStr = true) := by
        intro hc
        apply hpm
        have hroles : p.role = m.role := by
          have hsome := hc.1
          rw [hpr'] at hsome
          exact Option.some_inj.mp hsome.symm |>.symm
        exact ⟨hroles, hc.2.2, hc.2.1⟩
      have hstep : mergeAux (m :: rest) (p :: accTail) pr
          = mergeAux rest (m :: p :: accTail) (some m.role) := by
        simp [mergeAux, hm, hcond]
      rw [hstep]
      rw [ih (m :: p :: accTail) (some m.role)
        (fun x hx => hnull x (List.mem_cons_of_mem _ hx)) htail (by simp) ?_]
      · simp
      · intro q m2 hq hm2
        simp only [List.head?_cons, Option.some_inj] at hq
        subst hq
        exact hheadrel m2 hm2

/-- C1 counterexample: on the multi-party two-message history
[user A "hi", user B "hi"], _prepare_history does tag both messages with
their author but then role-merges them into a single message, because
_merge_messages keys on the role alone and both are user messages with
plain-text content; the fitted context is one message
"A: hi\n\nB: hi", not the two distinct messages the claim states. -/
theorem multi_party_scenario_not_two_messages :
    prepareHistory countTokensAnthropic 6144 true true
        [⟨"user", PyContent.str "hi", some "A"⟩, ⟨"user", PyContent.str "hi", some "B"⟩]
      ≠ [⟨"user", PyContent.str "A: hi", none⟩, ⟨"user", PyContent.str "B: hi", none⟩]
    ∧ (prepareHistory countTokensAnthropic 6144 true true
        [⟨"user", PyContent.str "hi", some "A"⟩, ⟨"user", PyContent.str "hi", some "B"⟩]).length
      = 1 := by
  refine ⟨by decide, by decide⟩

/-- C1 (amended): in a multi-party chat, preparing the two-message history
[user A "hi", user B "hi"] yields a single fitted message whose content is
"A: hi\n\nB: hi": the author tags are applied, and the role-merge then
folds the two user messages together (same role, both plain text),
whatever token counter, budget and image capability are in effect. -/
theorem multi_party_pair_merged (cnt : List ChatMessage → Nat) (mx : Nat)
    (canImg : Bool) :
    prepareHistory cnt mx canImg true
        [⟨"user", PyContent.str "hi", some "A"⟩, ⟨"user", PyContent.str "hi", some "B"⟩]
      = [⟨"user", PyContent.str "A: hi\n\nB: hi", none⟩] := by
  have hshort := trimHistory_short cnt mx
    [⟨"user", PyContent.str "A: hi\n\nB: hi", none⟩] (by decide)
  exact hshort

/-- C2 counterexample: with the heuristic counter and budget 2, the
over-budget three-message history [system, user, assistant] loses its
leading system-prompt message (dropped together with the user message as
the oldest pair), and the loop stops with a single message remaining that
is still over budget - not with two. -/
theorem trim_drops_leading_system :
    trimHistory countTokensAnthropic 2
        [⟨"system", PyContent.str "ssssssss", none⟩,
          ⟨"user", PyContent.str "uuuuuuuu", none⟩,
          ⟨"assistant", PyContent.str "aaaaaaaa", none⟩]
      = [⟨"assistant", PyContent.str "aaaaaaaa", none⟩]
    ∧ ⟨"system", PyContent.str "ssssssss", none⟩ ∉
        trimHistory countTokensAnthropic 2
          [⟨"system", PyContent.str "ssssssss", none⟩,
            ⟨"user", PyContent.str "uuuuuuuu", none⟩,
            ⟨"assistant", PyContent.str "aaaaaaaa", none⟩]
    ∧ countTokensAnthropic
        (trimHistory countTokensAnthropic 2
          [⟨"system", PyContent.str "ssssssss", none⟩,
            ⟨"user", PyContent.str "uuuuuuuu", none⟩,
            ⟨"assistant", PyContent.str "aaaaaaaa", none⟩]) > 2 := by
  refine ⟨by decide, by decide, by decide⟩

/-- C2 (amended): while the token count exceeds the maximum and at least 3
messages remain, exactly the two oldest messages are dropped per iteration
- including a system-prompt message at the front if present, which is not
preserved - and dropping stops as soon as the sequence is under budget or
fewer than 3 messages (two or one) remain: the result is the input with k
leading pairs removed, where the loop guard held before each of the k
drops and fails at the result. -/
theorem trim_budget_fit_drops_pairs (cnt : List ChatMessage → Nat) (mx : Nat)
    (h : List ChatMessage) :
    ∃ k, k ≤ h.length / 2
      ∧ trimHistory cnt mx h = h.drop (2 * k)
      ∧ ¬(cnt (h.drop (2 * k)) > mx ∧ (h.drop (2 * k)).length ≥ 3)
      ∧ ∀ j, j < k → cnt (h.drop (2 * j)) > mx ∧ (h.drop (2 * j)).length ≥ 3 :=
  trimHistory_spec cnt mx h

/-- C2 witness: the amended statement evaluated on the concrete
counterexample history. -/
theorem trim_budget_fit_drops_pairs_witness :
    ∃ k, k ≤ ([⟨"system", PyContent.str "ssssssss", none⟩,
          ⟨"user", PyContent.str "uuuuuuuu", none⟩,
          ⟨"assistant", PyContent.str "aaaaaaaa", none⟩] : List ChatMessage).length / 2
      ∧ trimHistory countTokensAnthropic 2
          [⟨"system", PyContent.str "ssssssss", none⟩,
            ⟨"user", PyContent.str "uuuuuuuu", none⟩,
            ⟨"assistant", PyContent.str "aaaaaaaa", none⟩]
        = ([⟨"system", PyContent.str "ssssssss", none⟩,
            ⟨"user", PyContent.str "uuuuuuuu", none⟩,
            ⟨"assistant", PyContent.str "aaaaaaaa", none⟩] : List ChatMessage).drop (2 * k)
      ∧ ¬(countTokensAnthropic
            (([⟨"system", PyContent.str "ssssssss", none⟩,
              ⟨"user", PyContent.str "uuuuuuuu", none⟩,
              ⟨"assistant", PyContent.str "aaaaaaaa", none⟩] : List ChatMessage).drop (2 * k)) > 2
          ∧ (([⟨"system", PyContent.str "ssssssss", none⟩,
              ⟨"user", PyContent.str "uuuuuuuu", none⟩,
              ⟨"assistant", PyContent.str "aaaaaaaa", none⟩] : List ChatMessage).drop (2 * k)).length ≥ 3)
      ∧ ∀ j, j < k →
          countTokensAnthropic
            (([⟨"system", PyContent.str "ssssssss", none⟩,
              ⟨"user", PyContent.str "uuuuuuuu", none⟩,
              ⟨"assistant", PyContent.str "aaaaaaaa", none⟩] : List ChatMessage).drop (2 * j)) > 2
          ∧ (([⟨"system", PyContent.str "ssssssss", none⟩,
              ⟨"user", PyContent.str "uuuuuuuu", none⟩,
              ⟨"assistant", PyContent.str "aaaaaaaa", none⟩] : List ChatMessage).drop (2 * j)).length ≥ 3 :=
  trim_budget_fit_drops_pairs countTokensAnthropic 2
    [⟨"system", PyContent.str "ssssssss", none⟩,
      ⟨"user", PyContent.str "uuuuuuuu", none⟩,
      ⟨"assistant", PyContent.str "aaaaaaaa", none⟩]

/-- C3: for every history and positive budget, the budget-fit loop
terminates after at most (length of the history) / 2 drop iterations (the
result is the input with 2k oldest messages removed for some such k), and
a non-empty input never trims to an empty result. -/
theorem trim_terminates_and_nonempty (cnt : List ChatMessage → Nat) (mx : Nat)
    (h : List ChatMessage) (hmx : 0 < mx) :
    (∃ k, k ≤ h.length / 2 ∧ trimHistory cnt mx h = h.drop (2 * k))
    ∧ (h ≠ [] → trimHistory cnt mx h ≠ []) := by
  obtain ⟨k, hk, heq, hstop, hall⟩ := trimHistory_spec cnt mx h
  refine ⟨⟨k, hk, heq⟩, ?_⟩
  intro hne hnil
  rw [heq, List.drop_eq_nil_iff] at hnil
  cases k with
  | zero =>
    have hz : h.length = 0 := by omega
    exact hne (List.length_eq_zero.mp hz)
  | succ k' =>
    have hg := (hall k' (Nat.lt_succ_self _)).2
    rw [List.length_drop] at hg
    omega

/-- C3 witness: the termination and non-emptiness statement applied to a
concrete one-message history and the default budget. -/
theorem trim_terminates_and_nonempty_witness :
    0 < 6144
    ∧ ((∃ k, k ≤ ([⟨"user", PyContent.str "hi", none⟩] : List ChatMessage).length / 2
          ∧ trimHistory countTokensAnthropic 6144 [⟨"user", PyContent.str "hi", none⟩]
            = ([⟨"user", PyContent.str "hi", none⟩] : List ChatMessage).drop (2 * k))
        ∧ (([⟨"user", PyContent.str "hi", none⟩] : List ChatMessage) ≠ [] →
            trimHistory countTokensAnthropic 6144 [⟨"user", PyContent.str "hi", none⟩] ≠ [])) :=
  ⟨by decide,
    trim_terminates_and_nonempty countTokensAnthropic 6144
      [⟨"user", PyContent.str "hi", none⟩] (by decide)⟩

/-- C4: the Phase 1 parse of check_tools never lets an error escape: if the
backend call raises, if the extracted brace span fails to decode as JSON,
if the decoded value is not an object (so subscripting raises), or if the
object lacks the tools key, the result is the empty tool mapping; and the
empty model output extracts to the empty span (whose decoding by
json.loads fails, landing in the malformed case). -/
theorem check_tools_fallback (jsonLoads : List Char → Except String PyObj)
    (modelAnswer : Except String (List Char)) :
    (∀ e, modelAnswer = Except.error e →
        checkToolsParse jsonLoads modelAnswer = PyObj.dict [])
    ∧ (∀ ans, modelAnswer = Except.ok ans →
        ((∀ e, jsonLoads (extractJsonSpan ans) = Except.error e →
            checkToolsParse jsonLoads modelAnswer = PyObj.dict [])
          ∧ (∀ entries, jsonLoads (extractJsonSpan ans) = Except.ok (PyObj.dict entries) →
              lookupKey entries "tools" = none →
              checkToolsParse jsonLoads modelAnswer = PyObj.dict [])
          ∧ (∀ s, jsonLoads (extractJsonSpan ans) = Except.ok (PyObj.str s) →
              checkToolsParse jsonLoads modelAnswer = PyObj.dict [])))
    ∧ extractJsonSpan [] = [] := by
  refine ⟨?_, ?_, by decide⟩
  · intro e he
    subst he
    rfl
  · intro ans hans
    subst hans
    refine ⟨?_, ?_, ?_⟩
    · intro e he
      simp [checkToolsParse, he]
    · intro entries he hkey
      simp [checkToolsParse, he, hkey]
    · intro s he
      simp [checkToolsParse, he]

/-- C4 witness: a decoder that rejects everything, applied to a concrete
model answer, yields the empty tool mapping. -/
theorem check_tools_fallback_witness :
    checkToolsParse (fun _ => Except.error "invalid json")
        (Except.ok ('h' :: 'i' :: [])) = PyObj.dict [] :=
  ((check_tools_fallback (fun _ => Except.error "invalid json")
      (Except.ok ('h' :: 'i' :: []))).2.1 ('h' :: 'i' :: []) rfl).1 "invalid json" rfl

/-- C5: the remaining-quota computation equals max(0, limit - used) with
the limit and window taken from the subscribed tier when the user is
subscribed and the standard tier otherwise; it is never negative, and it
is non-increasing as the used count grows for the same limits table. -/
theorem count_remaining_spec (limits : String → String → LimitEntry)
    (isSub : Bool) (cum : String → Nat → Int) (model : String) :
    countRemainingMessages limits isSub cum model
        = max 0 ((limits model (if isSub then "subscribed" else "standard")).limit
            - cum model (limits model (if isSub then "subscribed" else "standard")).interval)
    ∧ 0 ≤ countRemainingMessages limits isSub cum model
    ∧ ∀ cum2 : String → Nat → Int,
        cum model (limits model (if isSub then "subscribed" else "standard")).interval
          ≤ cum2 model (limits model (if isSub then "subscribed" else "standard")).interval →
        countRemainingMessages limits isSub cum2 model
          ≤ countRemainingMessages limits isSub cum model := by
  cases isSub <;>
    refine ⟨rfl, le_max_left _ _, ?_⟩ <;>
    · intro cum2 hle
      simp only [countRemainingMessages]
      exact max_le_max le_rfl (sub_le_sub_left hle _)

/-- C5 witness: the quota formula evaluated for a subscribed user with a
limit of 10 and a usage count growing from 3 to 7. -/
theorem count_remaining_spec_witness :
    countRemainingMessages (fun _ _ => LimitEntry.mk 10 86400) true
        (fun _ _ => 7) "gpt-4o"
      ≤ countRemainingMessages (fun _ _ => LimitEntry.mk 10 86400) true
        (fun _ _ => 3) "gpt-4o" :=
  (count_remaining_spec (fun _ _ => LimitEntry.mk 10 86400) true
      (fun _ _ => 3) "gpt-4o").2.2 (fun _ _ => 7) (by decide)

/-- C6: for every answer text and positive chunk size, the chunks of
generate (line 561) concatenate back to the answer exactly and each chunk
is at most chunk_size characters long. -/
theorem chunking_round_trip (answer : List Char) (chunkSize : Nat)
    (hcs : 0 < chunkSize) :
    (generateChunks answer chunkSize).flatten = answer
    ∧ ∀ c ∈ generateChunks answer chunkSize, c.length ≤ chunkSize :=
  ⟨generateChunks_flatten chunkSize hcs answer,
    generateChunks_length_le chunkSize answer⟩

/-- C6 witness: the round trip on a concrete 5-character answer with chunk
size 2. -/
theorem chunking_round_trip_witness :
    0 < 2
    ∧ ((generateChunks ('a' :: 'b' :: 'c' :: 'd' :: 'e' :: []) 2).flatten
          = 'a' :: 'b' :: 'c' :: 'd' :: 'e' :: []
        ∧ ∀ c ∈ generateChunks ('a' :: 'b' :: 'c' :: 'd' :: 'e' :: []) 2,
            c.length ≤ 2) :=
  ⟨by decide, chunking_round_trip ('a' :: 'b' :: 'c' :: 'd' :: 'e' :: []) 2 (by decide)⟩

/-- C7: the role-merge pass is idempotent: its output has no None content
and no adjacent same-role pair of plain-text messages left, and on such a
sequence the pass appends every message unchanged. -/
theorem merge_idempotent (messages : List ChatMessage) :
    mergeMessages (mergeMessages messages) = mergeMessages messages := by
  obtain ⟨hnull, hchain⟩ := mergeAux_normalized messages [] none (by simp) (by simp) rfl
  have h := mergeAux_eq_append (mergeMessages messages) [] none hnull hchain rfl (by simp)
  simpa [mergeMessages] using h

/-- C8: two adjacent messages with the same role and plain-text contents
merge into one message whose content is the two texts joined by a blank
line; a role change or a non-text side leaves the two messages separate;
in particular user "foo" followed by user "bar" merges to "foo\n\nbar". -/
theorem merge_adjacent_rule (a b : ChatMessage) :
    (∀ sa sb, a.role = b.role → a.content = PyContent.str sa →
        b.content = PyContent.str sb →
        mergeMessages [a, b] = [{ a with content := PyContent.str (sa ++ "\n\n" ++ sb) }])
    ∧ (a.content ≠ PyContent.null → b.content ≠ PyContent.null →
        (a.role ≠ b.role ∨ a.content.isStr = false ∨ b.content.isStr = false) →
        mergeMessages [a, b] = [a, b])
    ∧ mergeMessages [⟨"user", PyContent.str "foo", none⟩, ⟨"user", PyContent.str "bar", none⟩]
        = [⟨"user", PyContent.str "foo\n\nbar", none⟩] := by
  refine ⟨?_, ?_, by decide⟩
  · intro sa sb hrole ha hb
    simp [mergeMessages, mergeAux, ha, hb, concatContents, PyContent.isStr, hrole]
  · intro hanull hbnull hbreak
    have hcond : ¬(some a.role = some b.role ∧ b.content.isStr = true
        ∧ a.content.isStr = true) := by
      rcases hbreak with h | h | h
      · intro hc
        exact h (Option.some_inj.mp hc.1)
      · intro hc
        rw [h] at hc
        exact absurd hc.2.2 (by simp)
      · intro hc
        rw [h] at hc
        exact absurd hc.2.1 (by simp)
    simp [mergeMessages, mergeAux, hanull, hbnull, hcond]
    intro h1 h2
    cases hx : a.content.isStr
    · rfl
    · exact absurd ⟨by rw [h1], h2, hx⟩ hcond

/-- C8 witness: the merge rule applied to two concrete same-role text
messages and to a concrete role-change pair. -/
theorem merge_adjacent_rule_witness :
    mergeMessages [⟨"user", PyContent.str "x", none⟩, ⟨"user", PyContent.str "y", none⟩]
        = [⟨"user", PyContent.str "x\n\ny", none⟩]
    ∧ mergeMessages [⟨"user", PyContent.str "x", none⟩, ⟨"assistant", PyContent.str "y", none⟩]
        = [⟨"user", PyContent.str "x", none⟩, ⟨"assistant", PyContent.str "y", none⟩] :=
  ⟨(merge_adjacent_rule ⟨"user", PyContent.str "x", none⟩
        ⟨"user", PyContent.str "y", none⟩).1 "x" "y" rfl rfl rfl,
    (merge_adjacent_rule ⟨"user", PyContent.str "x", none⟩
        ⟨"assistant", PyContent.str "y", none⟩).2.1 (by decide) (by decide)
      (Or.inl (by decide))⟩

/-- C9 counterexample: the author-tagging step is not side-effect-free on
the raw history: the source loop assigns m["content"] in place and returns
the very list it received, so the state of the input list after the call
(modelled by formatChat) differs from the original input whenever a
message is tagged. -/
theorem format_chat_mutates_input :
    formatChat [⟨"user", PyContent.str "hi", some "A"⟩]
      ≠ [⟨"user", PyContent.str "hi", some "A"⟩] := by
  decide

/-- C9 (amended): the budget-fit step does leave its input unchanged (it
only rebinds a local name to suffixes of the list, and the result is a
suffix of its input), but the author-tagging step returns the input list
itself with tagged contents rewritten in place: the input history is
unchanged after it exactly when no message qualifies for tagging. -/
theorem prepare_steps_effects :
    (∀ h : List ChatMessage, formatChat h = h ↔ ∀ m ∈ h, tagUserMessage m = m)
    ∧ ∀ (cnt : List ChatMessage → Nat) (mx : Nat) (l : List ChatMessage),
        List.IsSuffix (trimHistory cnt mx l) l := by
  constructor
  · intro h
    exact map_fixes_iff tagUserMessage h
  · intro cnt mx l
    obtain ⟨k, _, heq, _, _⟩ := trimHistory_spec cnt mx l
    rw [heq]
    exact List.drop_suffix _ _

/-- C10: splitting the empty answer produces no chunks at all (so there is
no first chunk to deliver), and for a non-empty answer every chunk is
non-empty. -/
theorem chunking_empty_and_nonempty (chunkSize : Nat) (hcs : 0 < chunkSize) :
    generateChunks [] chunkSize = []
    ∧ ∀ answer : List Char, answer ≠ [] →
        ∀ c ∈ generateChunks answer chunkSize, c ≠ [] :=
  ⟨generateChunks_nil chunkSize,
    fun answer hne => generateChunks_ne_nil chunkSize hcs answer hne⟩

/-- C10 witness: chunk size 3, evaluated on the empty answer and on a
concrete 4-character answer. -/
theorem chunking_empty_and_nonempty_witness :
    0 < 3
    ∧ (generateChunks [] 3 = []
        ∧ ∀ answer : List Char, answer ≠ [] →
            ∀ c ∈ generateChunks answer 3, c ≠ []) :=
  ⟨by decide, chunking_empty_and_nonempty 3 (by decide)⟩

end SaigaBot
